import Mathlib

/-!
Verification of the image-to-ascii conversion core
(`src/processor/image_processor.py`, `src/utils/validators.py`).

The Python functions are shallowly embedded as executable Lean
definitions.  Machine integers are modelled as `Nat`; Python's
real-valued `/` followed by `int(...)` truncation on non-negative
values is modelled as the integer floor of the corresponding rational
expression; fallible operations (list indexing, division by zero)
return `Option`.  Grayscale bitmaps, colour bitmaps and opacity masks
are row-major lists of rows, exactly as the `numpy` arrays are
iterated by the source.
-/

/-- RGB triple, each component a byte 0..255 (`tuple(map(int, ...))`). -/
abbrev RGBTriple := Nat × Nat × Nat

/-- The four colour modes of `ImageProcessor._color_modes`. -/
inductive ColorMode where
  | cnone
  | cforeground
  | cbackground
  | cboth
deriving DecidableEq

/-- Decimal digits of a natural number, most significant first; mirrors
Python's `str(int)` / the `f"{color_code}"` interpolation. -/
def natDigits (n : Nat) : List Char :=
  if h : n < 10 then [Char.ofNat (48 + n)]
  else natDigits (n / 10) ++ [Char.ofNat (48 + n % 10)]
decreasing_by exact Nat.div_lt_self (by omega) (by omega)

/-- Decimal rendering of a natural number as a string. -/
def natStr (n : Nat) : String := String.mk (natDigits n)

/-- `ImageProcessor._rgb_to_256`: quantize each channel to 6 levels via
`int((v * 5) / 255)` (floor, as the operands are non-negative) and form the
216-colour cube index `16 + 36*r + 6*g + b`. -/
def rgbTo256 (r g b : Nat) : Nat :=
  16 + 36 * (r * 5 / 255) + 6 * (g * 5 / 255) + (b * 5 / 255)

/-- `ImageProcessor._get_color_escape`: the ANSI 256-colour escape,
`f"\033[{48 if background else 38};5;{color_code}m"`. -/
def getColorEscape (r g b : Nat) (background : Bool) : String :=
  "\x1b[" ++ (if background then "48" else "38") ++ ";5;" ++ natStr (rgbTo256 r g b) ++ "m"

/-- `ImageProcessor._no_color`: the character unmodified. -/
def noColor (ch : Char) (_rgb : RGBTriple) : String := String.mk [ch]

/-- `ImageProcessor._foreground_color`. -/
def foregroundColor (ch : Char) (rgb : RGBTriple) : String :=
  getColorEscape rgb.1 rgb.2.1 rgb.2.2 false ++ String.mk [ch]

/-- `ImageProcessor._background_color`. -/
def backgroundColor (ch : Char) (rgb : RGBTriple) : String :=
  getColorEscape rgb.1 rgb.2.1 rgb.2.2 true ++ String.mk [ch]

/-- `ImageProcessor._both_color`: foreground escape from the given RGB,
background escape from the RGB nudged by `+20` per channel and clamped
with `max(0, min(255, v + 20))`. -/
def bothColor (ch : Char) (rgb : RGBTriple) : String :=
  getColorEscape rgb.1 rgb.2.1 rgb.2.2 false ++
    getColorEscape (max 0 (min 255 (rgb.1 + 20))) (max 0 (min 255 (rgb.2.1 + 20)))
      (max 0 (min 255 (rgb.2.2 + 20))) true ++ String.mk [ch]

/-- The `ImageProcessor._color_modes` dispatch table. -/
def colorize : ColorMode → Char → RGBTriple → String
  | ColorMode.cnone => noColor
  | ColorMode.cforeground => foregroundColor
  | ColorMode.cbackground => backgroundColor
  | ColorMode.cboth => bothColor

/-- Gradient-mode bucket index: `int(pixel / intensity_levels)` where
`intensity_levels = 255 / (len(chars) - 1)` is Python real division.  The
value is non-negative for palettes of length at least 2, so `int`
truncation is the floor. -/
def gradientIndex (pixel n : Nat) : Nat :=
  (⌊(pixel : ℚ) / ((255 : ℚ) / ((n : ℚ) - 1))⌋).toNat

/-- Character selection, as inlined in both conversion loops: pattern
mode looks up `chars[col_idx % len(chars)]`, gradient mode looks up
`chars[int(pixel / intensity_levels)]`.  `none` models the Python
exceptions: modulo/division by zero for degenerate palettes and
`IndexError` for an out-of-range lookup. -/
def selectChar (chars : List Char) (patternMode : Bool) (pixel colIdx : Nat) : Option Char :=
  if patternMode then
    if chars.length = 0 then none
    else chars[colIdx % chars.length]?
  else
    if chars.length = 1 then none
    else chars[gradientIndex pixel chars.length]?

/-- One row of the unmasked conversion loop of
`ImageProcessor._convert_to_ascii`, producing the list of (possibly
colourized) cells for the pixel row `ps`, starting at column `i` of row
`r`.  Colour lookup is `color_pixels[r][i]`. -/
def rowCells (chars : List Char) (patternMode : Bool) (colorMode : ColorMode)
    (colors : List (List RGBTriple)) (r : Nat) : List Nat → Nat → Option (List String)
  | [], _ => some []
  | p :: ps, i => do
    let ch ← selectChar chars patternMode p i
    let rgb ← (colors[r]?).bind (fun crow => crow[i]?)
    let rest ← rowCells chars patternMode colorMode colors r ps (i + 1)
    pure (colorize colorMode ch rgb :: rest)

/-- The row loop of `ImageProcessor._convert_to_ascii`: one cell list per
grayscale pixel row, with `r` the running `row_idx`. -/
def convertRows (chars : List Char) (patternMode : Bool) (colorMode : ColorMode)
    (colors : List (List RGBTriple)) : List (List Nat) → Nat → Option (List (List String))
  | [], _ => some []
  | row :: rows, r => do
    let cells ← rowCells chars patternMode colorMode colors r row 0
    let rest ← convertRows chars patternMode colorMode colors rows (r + 1)
    pure (cells :: rest)

/-- `''.join(ascii_row)`. -/
def strJoin : List String → String
  | [] => ""
  | s :: rest => s ++ strJoin rest

/-- `'\n'.join(ascii_str)`. -/
def nlJoin : List String → String
  | [] => ""
  | [s] => s
  | s :: rest => s ++ "\n" ++ nlJoin rest

/-- The trailing `"\033[0m"` reset appended to every rendered output. -/
def asciiReset : String := "\x1b[0m"

/-- `ImageProcessor._convert_to_ascii`: select and colourize every cell,
join each row, join the rows with newlines, append the reset escape. -/
def convertToAscii (pixels : List (List Nat)) (colors : List (List RGBTriple))
    (chars : List Char) (patternMode : Bool) (colorMode : ColorMode) : Option String := do
  let grid ← convertRows chars patternMode colorMode colors pixels 0
  pure (nlJoin (grid.map strJoin) ++ asciiReset)

/-- One row of `ImageProcessor._convert_to_ascii_with_mask`: positions with
`mask_pixels[r][i] < 128` emit a bare space and never touch the colour
bitmap; other positions behave as in the unmasked loop. -/
def rowCellsMasked (chars : List Char) (patternMode : Bool) (colorMode : ColorMode)
    (maskPixels : List (List Nat)) (colors : List (List RGBTriple)) (r : Nat) :
    List Nat → Nat → Option (List String)
  | [], _ => some []
  | p :: ps, i => do
    let mv ← (maskPixels[r]?).bind (fun mrow => mrow[i]?)
    if mv < 128 then
      let rest ← rowCellsMasked chars patternMode colorMode maskPixels colors r ps (i + 1)
      pure (" " :: rest)
    else
      let ch ← selectChar chars patternMode p i
      let rgb ← (colors[r]?).bind (fun crow => crow[i]?)
      let rest ← rowCellsMasked chars patternMode colorMode maskPixels colors r ps (i + 1)
      pure (colorize colorMode ch rgb :: rest)

/-- The row loop of `ImageProcessor._convert_to_ascii_with_mask`. -/
def convertRowsMasked (chars : List Char) (patternMode : Bool) (colorMode : ColorMode)
    (maskPixels : List (List Nat)) (colors : List (List RGBTriple)) :
    List (List Nat) → Nat → Option (List (List String))
  | [], _ => some []
  | row :: rows, r => do
    let cells ← rowCellsMasked chars patternMode colorMode maskPixels colors r row 0
    let rest ← convertRowsMasked chars patternMode colorMode maskPixels colors rows (r + 1)
    pure (cells :: rest)

/-- `ImageProcessor._convert_to_ascii_with_mask`. -/
def convertToAsciiWithMask (pixels maskPixels : List (List Nat))
    (colors : List (List RGBTriple)) (chars : List Char) (patternMode : Bool)
    (colorMode : ColorMode) : Option String := do
  let grid ← convertRowsMasked chars patternMode colorMode maskPixels colors pixels 0
  pure (nlJoin (grid.map strJoin) ++ asciiReset)

/-- `ImageProcessor._resize_image` height: `int(aspect_ratio * width * 0.5)`
with `aspect_ratio = image.height / image.width` (real division); the
value is non-negative, so `int` truncation is the floor.  The resized
image is `(width, resizeHeight w h width)`. -/
def resizeHeight (w h width : Nat) : Nat :=
  (⌊(h : ℚ) / (w : ℚ) * (width : ℚ) * (1 / 2)⌋).toNat

/-- `ImageProcessor._resize_image` output dimensions:
`image.resize((width, height))`. -/
def resizeSize (w h width : Nat) : Nat × Nat :=
  (width, resizeHeight w h width)

/-- Pixel-channel mode of a decoded image (`Image.mode`). -/
inductive PixMode where
  | modeL
  | modeRGB
  | modeRGBA
deriving DecidableEq

/-- A decoded image as far as `_remove_background` inspects it: its mode,
its dimensions, and (for RGBA images) its alpha plane
(`no_bg_image.split()[3]`). -/
structure PImage where
  mode : PixMode
  w : Nat
  h : Nat
  alpha : List (List Nat)

/-- `Image.new('L', (w, h), v)`: a `h` by `w` single-channel plane filled
with `v`. -/
def newL (w h v : Nat) : List (List Nat) :=
  List.replicate h (List.replicate w v)

/-- `ImageProcessor._remove_background`.  The external `rembg.remove`
round-trip is a black-box collaborator, passed in as its outcome: either
an exception or the decoded no-background image.  On exception the
original image is returned with an all-255 mask of its size and a
warning is printed (the `Bool`); on success the alpha channel is used as
the mask when the output is RGBA, otherwise an all-255 mask of the
output's size is synthesized. -/
def removeBackground (image : PImage) (external : Except String PImage) :
    PImage × List (List Nat) × Bool :=
  match external with
  | Except.error _ => (image, newL image.w image.h 255, true)
  | Except.ok noBg =>
    if noBg.mode = PixMode.modeRGBA then (noBg, noBg.alpha, false)
    else (noBg, newL noBg.w noBg.h 255, false)

/-- The `ValidationError` cases raised by `validate_chars`. -/
inductive CharsValidationError where
  | tooFew (got : Nat)
  | tooMany (got : Nat)
  | emptyEntry
  | spaceNotAllowed
  | specialNotAllowed
  | nonPrintable
deriving DecidableEq

/-- Python `str.isspace()` for a palette entry: non-empty and all
whitespace (`Char.isWhitespace` stands in for the Unicode table). -/
def pyIsSpace (s : String) : Bool :=
  s.length != 0 && s.data.all Char.isWhitespace

/-- Python `str.isalnum()` for a palette entry: non-empty and all
alphanumeric (`Char.isAlphanum` stands in for the Unicode table). -/
def pyIsAlnum (s : String) : Bool :=
  s.length != 0 && s.data.all Char.isAlphanum

/-- Membership in Python's `string.printable`: ASCII 32..126 plus
`'\t'`, `'\n'`, `'\r'`, `'\x0b'`, `'\x0c'`. -/
def pyPrintable (c : Char) : Bool :=
  (32 ≤ c.toNat && c.toNat ≤ 126) || c ∈ ['\t', '\n', '\x0d', '\x0b', '\x0c']

/-- `validate_chars` from `src/utils/validators.py`: the checks in source
order, raising (`Except.error`) at the first failure. -/
def validateChars (chars : List String) (minChars maxChars : Nat)
    (allowSpaces allowSpecial printableOnly : Bool) : Except CharsValidationError Unit :=
  if chars.length < minChars then Except.error (CharsValidationError.tooFew chars.length)
  else if chars.length > maxChars then Except.error (CharsValidationError.tooMany chars.length)
  else if "" ∈ chars then Except.error CharsValidationError.emptyEntry
  else if !allowSpaces && chars.any pyIsSpace then
    Except.error CharsValidationError.spaceNotAllowed
  else if !allowSpecial && chars.any (fun c => !pyIsAlnum c) then
    Except.error CharsValidationError.specialNotAllowed
  else if printableOnly && chars.any (fun c => c.data.any (fun ch => !pyPrintable ch)) then
    Except.error CharsValidationError.nonPrintable
  else Except.ok ()

/-- `ImageProcessor.__init__`: `self._width = 100`. -/
def defaultWidth : Nat := 100

/-- `ImageProcessor.__init__`: `self._default_chars`. -/
def defaultChars : List Char :=
  ['@', '#', 'S', '%', '?', '*', '+', ';', ':', ',', '.']

/-- `width = width or self._width` at the top of `image_to_ascii`:
Python `or` replaces a falsy argument — `None` or `0` — by the default
(negative widths are truthy and kept). -/
def imageToAsciiWidth (width : Option Int) : Int :=
  match width with
  | none => defaultWidth
  | some w => if w = 0 then defaultWidth else w

/-- `chars = chars or self._default_chars` at the top of `image_to_ascii`:
`None` and the empty list are falsy and replaced by the default palette;
any non-empty list is used as given, unvalidated. -/
def imageToAsciiChars (chars : Option (List Char)) : List Char :=
  match chars with
  | none => defaultChars
  | some cs => if cs = [] then defaultChars else cs

/-- Visible-character counter for rendered output: a one-state scanner
that skips ANSI escape sequences (from `'\x1b'` up to and including the
terminating `'m'`) and counts every other character. -/
def visAux : Bool → List Char → Nat
  | _, [] => 0
  | true, c :: cs => if c = 'm' then visAux false cs else visAux true cs
  | false, c :: cs => if c = '\x1b' then visAux true cs else visAux false cs + 1

/-- Number of characters of a string that are not part of an ANSI escape
sequence. -/
def visibleCount (s : String) : Nat := visAux false s.data

/-- Split a character list at newlines; a string with `k` newlines has
`k + 1` newline-separated rows. -/
def splitNl : List Char → List (List Char)
  | [] => [[]]
  | c :: cs =>
    if c = '\n' then [] :: splitNl cs
    else
      match splitNl cs with
      | [] => [[c]]
      | r :: rs => (c :: r) :: rs

/-- Number of escape characters `'\x1b'` in a string. -/
def countEsc (s : String) : Nat := s.data.count '\x1b'

/-! ### Helper lemmas -/

theorem gradientIndex_eq_div (pixel n : Nat) (hn : 1 ≤ n) :
    gradientIndex pixel n = pixel * (n - 1) / 255 := by
  unfold gradientIndex
  have h1 : ((n : ℚ) - 1) = ((n - 1 : Nat) : ℚ) := by
    push_cast [Nat.cast_sub hn]
    ring
  rw [h1, div_div_eq_mul_div]
  have h2 : (pixel : ℚ) * ((n - 1 : Nat) : ℚ) = ((pixel * (n - 1) : Nat) : ℚ) := by
    push_cast; ring
  rw [h2, Int.floor_toNat]
  exact_mod_cast Nat.floor_div_eq_div (α := ℚ) (pixel * (n - 1)) 255

theorem gradientIndex_le (pixel n : Nat) (hn : 2 ≤ n) (hp : pixel ≤ 255) :
    gradientIndex pixel n ≤ n - 1 := by
  rw [gradientIndex_eq_div pixel n (by omega)]
  calc pixel * (n - 1) / 255 ≤ 255 * (n - 1) / 255 :=
        Nat.div_le_div_right (Nat.mul_le_mul_right _ hp)
    _ = n - 1 := Nat.mul_div_cancel_left _ (by omega)

theorem gradientIndex_lt (pixel n : Nat) (hn : 2 ≤ n) (hp : pixel ≤ 255) :
    gradientIndex pixel n < n := by
  have := gradientIndex_le pixel n hn hp
  omega

theorem selectChar_spec (chars : List Char) (pm : Bool) (pixel colIdx : Nat)
    (h2 : 2 ≤ chars.length) (hp : pixel ≤ 255) :
    ∃ ch, selectChar chars pm pixel colIdx = some ch ∧ ch ∈ chars := by
  unfold selectChar
  cases pm with
  | true =>
    have hne : chars.length ≠ 0 := by omega
    have hidx : colIdx % chars.length < chars.length := Nat.mod_lt _ (by omega)
    refine ⟨chars[colIdx % chars.length], ?_, List.getElem_mem _⟩
    simp [hne, List.getElem?_eq_getElem hidx]
  | false =>
    have hne : chars.length ≠ 1 := by omega
    have hidx : gradientIndex pixel chars.length < chars.length :=
      gradientIndex_lt pixel chars.length h2 hp
    refine ⟨chars[gradientIndex pixel chars.length], ?_, List.getElem_mem _⟩
    simp [hne, List.getElem?_eq_getElem hidx]

theorem mk_data (l : List Char) : (String.mk l).data = l := rfl

theorem natDigits_bounds : ∀ (n : Nat), ∀ c ∈ natDigits n, 48 ≤ c.toNat ∧ c.toNat ≤ 57 := by
  intro n
  induction n using Nat.strong_induction_on with
  | _ n ih =>
    rw [natDigits]
    split
    next h =>
      intro c hc
      simp only [List.mem_singleton] at hc
      subst hc
      interval_cases n <;> decide
    next h =>
      intro c hc
      rcases List.mem_append.mp hc with h1 | h2
      · exact ih (n / 10) (Nat.div_lt_self (by omega) (by omega)) c h1
      · simp only [List.mem_singleton] at h2
        subst h2
        have hm : n % 10 < 10 := Nat.mod_lt _ (by omega)
        set m := n % 10 with hmdef
        interval_cases m <;> decide

theorem visAux_skip_mid : ∀ (l : List Char), (∀ c ∈ l, c ≠ 'm') → ∀ rest,
    visAux true (l ++ rest) = visAux true rest := by
  intro l
  induction l with
  | nil => intro _ rest; rfl
  | cons c cs ih =>
    intro h rest
    have hc : c ≠ 'm' := h c (List.mem_cons_self _ _)
    simp only [List.cons_append, visAux, if_neg hc]
    exact ih (fun x hx => h x (List.mem_cons_of_mem _ hx)) rest

theorem natDigits_ne_m (n : Nat) : ∀ c ∈ natDigits n, c ≠ 'm' := by
  intro c hc
  have := natDigits_bounds n c hc
  intro heq
  subst heq
  revert this
  decide

theorem visAux_getColorEscape (r g b : Nat) (bg : Bool) (rest : List Char) :
    visAux false ((getColorEscape r g b bg).data ++ rest) = visAux false rest := by
  unfold getColorEscape
  cases bg <;>
  · simp only [String.data_append, mk_data, natStr, if_true, if_false]
    show visAux false (('\x1b' :: '[' :: _) ++ rest) = visAux false rest
    simp only [List.cons_append, visAux, List.append_assoc]
    norm_num
    rw [visAux_skip_mid (natDigits (rgbTo256 r g b)) (natDigits_ne_m _)]
    rfl

theorem nl_not_mem_escape (r g b : Nat) (bg : Bool) : '\n' ∉ (getColorEscape r g b bg).data := by
  unfold getColorEscape
  cases bg <;>
  · simp only [String.data_append, mk_data, natStr, if_true, if_false]
    intro hmem
    simp only [List.mem_append] at hmem
    rcases hmem with ((h | h) | h) | h
    · revert h; decide
    · revert h; decide
    · have := natDigits_bounds _ _ h
      revert this; decide
    · revert h; decide

/-- A rendered cell: exactly one visible character, a closed escape
state, and no newline. -/
def CellGood (s : String) : Prop :=
  (∀ rest : List Char, visAux false (s.data ++ rest) = visAux false rest + 1) ∧ '\n' ∉ s.data

theorem cellGood_single (ch : Char) (h1 : ch ≠ '\n') (h2 : ch ≠ '\x1b') :
    CellGood (String.mk [ch]) := by
  constructor
  · intro rest
    simp [visAux, h2]
  · simp [h1.symm]

theorem cellGood_escape_before (r g b : Nat) (bg : Bool) (s : String) (h : CellGood s) :
    CellGood (getColorEscape r g b bg ++ s) := by
  constructor
  · intro rest
    rw [String.data_append, List.append_assoc, visAux_getColorEscape]
    exact h.1 rest
  · rw [String.data_append]
    intro hmem
    rcases List.mem_append.mp hmem with hh | hh
    · exact nl_not_mem_escape r g b bg hh
    · exact h.2 hh

theorem colorize_cellGood (cm : ColorMode) (ch : Char) (rgb : RGBTriple)
    (h1 : ch ≠ '\n') (h2 : ch ≠ '\x1b') : CellGood (colorize cm ch rgb) := by
  cases cm with
  | cnone => exact cellGood_single ch h1 h2
  | cforeground => exact cellGood_escape_before _ _ _ _ _ (cellGood_single ch h1 h2)
  | cbackground => exact cellGood_escape_before _ _ _ _ _ (cellGood_single ch h1 h2)
  | cboth =>
    show CellGood (bothColor ch rgb)
    unfold bothColor
    rw [String.append_assoc]
    exact cellGood_escape_before _ _ _ _ _
      (cellGood_escape_before _ _ _ _ _ (cellGood_single ch h1 h2))

theorem cellGood_space : CellGood " " := by
  constructor
  · intro rest
    simp [visAux, show (' ' : Char) ≠ '\x1b' by decide]
  · decide

/-- A rendered row: `w` visible characters, a closed escape state, no
newline. -/
def RowGood (w : Nat) (s : String) : Prop :=
  (∀ rest : List Char, visAux false (s.data ++ rest) = visAux false rest + w) ∧ '\n' ∉ s.data

theorem strJoin_rowGood : ∀ (cells : List String), (∀ s ∈ cells, CellGood s) →
    RowGood cells.length (strJoin cells) := by
  intro cells
  induction cells with
  | nil =>
    intro _
    exact ⟨fun rest => rfl, by decide⟩
  | cons s rest ih =>
    intro h
    have hs : CellGood s := h s (List.mem_cons_self _ _)
    have hrest := ih (fun x hx => h x (List.mem_cons_of_mem _ hx))
    constructor
    · intro tail
      show visAux false ((s ++ strJoin rest).data ++ tail) = _
      rw [String.data_append, List.append_assoc, hs.1, hrest.1]
      simp [List.length_cons]
      omega
    · show '\n' ∉ (s ++ strJoin rest).data
      rw [String.data_append]
      intro hmem
      rcases List.mem_append.mp hmem with hh | hh
      · exact hs.2 hh
      · exact hrest.2 hh

theorem splitNl_no_nl : ∀ (l : List Char), '\n' ∉ l → splitNl l = [l] := by
  intro l
  induction l with
  | nil => intro _; rfl
  | cons c cs ih =>
    intro h
    have hc : c ≠ '\n' := fun heq => h (heq ▸ List.mem_cons_self _ _)
    have hcs : '\n' ∉ cs := fun hmem => h (List.mem_cons_of_mem _ hmem)
    simp only [splitNl, if_neg hc, ih hcs]

theorem splitNl_append_cons : ∀ (a b : List Char), '\n' ∉ a →
    splitNl (a ++ '\n' :: b) = a :: splitNl b := by
  intro a
  induction a with
  | nil =>
    intro b _
    simp [splitNl]
  | cons c cs ih =>
    intro b h
    have hc : c ≠ '\n' := fun heq => h (heq ▸ List.mem_cons_self _ _)
    have hcs : '\n' ∉ cs := fun hmem => h (List.mem_cons_of_mem _ hmem)
    simp only [List.cons_append, splitNl, if_neg hc]
    rw [List.append_eq, ih b hcs]

theorem visAux_reset (rest : List Char) :
    visAux false (asciiReset.data ++ rest) = visAux false rest := by
  rfl

/-- Shape of the final rendered string: as many newline-separated rows
as were joined, each with `w` visible characters; the trailing reset
escape contributes nothing visible to the last row. -/
theorem rendered_shape (w : Nat) : ∀ (rows : List String), rows ≠ [] →
    (∀ s ∈ rows, RowGood w s) →
    (splitNl ((nlJoin rows ++ asciiReset).data)).length = rows.length ∧
    ∀ rr ∈ splitNl ((nlJoin rows ++ asciiReset).data), visAux false rr = w := by
  intro rows
  induction rows with
  | nil => intro h; exact absurd rfl h
  | cons s rest ih =>
    intro _ hgood
    have hs : RowGood w s := hgood s (List.mem_cons_self _ _)
    cases rest with
    | nil =>
      have hnl : '\n' ∉ (nlJoin [s] ++ asciiReset).data := by
        show '\n' ∉ (s ++ asciiReset).data
        rw [String.data_append]
        intro hmem
        rcases List.mem_append.mp hmem with hh | hh
        · exact hs.2 hh
        · revert hh; decide
      rw [splitNl_no_nl _ hnl]
      refine ⟨rfl, ?_⟩
      intro rr hrr
      simp only [List.mem_singleton] at hrr
      subst hrr
      show visAux false (s ++ asciiReset).data = w
      rw [String.data_append, hs.1 asciiReset.data]
      have h0 : visAux false asciiReset.data = 0 := rfl
      omega
    | cons t rest2 =>
      have hjoin : nlJoin (s :: t :: rest2) = s ++ "\n" ++ nlJoin (t :: rest2) := rfl
      have hrec := ih (by simp) (fun x hx => hgood x (List.mem_cons_of_mem _ hx))
      have hdata : (nlJoin (s :: t :: rest2) ++ asciiReset).data =
          s.data ++ '\n' :: (nlJoin (t :: rest2) ++ asciiReset).data := by
        rw [hjoin]
        simp [String.data_append]
      rw [String.data_append] at hrec
      rw [hdata, splitNl_append_cons _ _ hs.2]
      constructor
      · rw [String.data_append]
        simp [hrec.1]
      · intro rr hrr
        rw [String.data_append] at hrr
        rcases List.mem_cons.mp hrr with hh | hh
        · subst hh
          rw [← List.append_nil s.data, hs.1 []]
          have h0 : visAux false ([] : List Char) = 0 := rfl
          omega
        · exact hrec.2 rr hh

theorem selectChar_mem (chars : List Char) (pm : Bool) (p i : Nat) (ch : Char)
    (h : selectChar chars pm p i = some ch) : ch ∈ chars := by
  unfold selectChar at h
  split at h
  · split at h
    · exact absurd h (by simp)
    · exact List.getElem?_mem h
  · split at h
    · exact absurd h (by simp)
    · exact List.getElem?_mem h

theorem rowCells_spec (chars : List Char) (pm : Bool) (cm : ColorMode)
    (colors : List (List RGBTriple)) (r : Nat) (crow : List RGBTriple)
    (hcrow : colors[r]? = some crow) (h2 : 2 ≤ chars.length)
    (hsafe : ∀ c ∈ chars, c ≠ '\n' ∧ c ≠ '\x1b') :
    ∀ (ps : List Nat) (i : Nat), (∀ p ∈ ps, p ≤ 255) → i + ps.length ≤ crow.length →
    ∃ cells, rowCells chars pm cm colors r ps i = some cells ∧
      cells.length = ps.length ∧ ∀ s ∈ cells, CellGood s := by
  intro ps
  induction ps with
  | nil => exact fun i _ _ => ⟨[], rfl, rfl, by simp⟩
  | cons p ps ih =>
    intro i hint hlen
    obtain ⟨ch, hch, hchmem⟩ := selectChar_spec chars pm p i h2 (hint p (List.mem_cons_self _ _))
    have hi : i < crow.length := by
      simp only [List.length_cons] at hlen
      omega
    obtain ⟨cells, hcells, hlen2, hgood⟩ :=
      ih (i + 1) (fun q hq => hint q (List.mem_cons_of_mem _ hq))
        (by simp only [List.length_cons] at hlen; omega)
    refine ⟨colorize cm ch crow[i] :: cells, ?_, by simp [hlen2], ?_⟩
    · simp only [rowCells, hch, hcrow, Option.some_bind, List.getElem?_eq_getElem hi, hcells]
      rfl
    · intro s hs
      rcases List.mem_cons.mp hs with hh | hh
      · subst hh
        exact colorize_cellGood cm ch _ (hsafe ch hchmem).1 (hsafe ch hchmem).2
      · exact hgood s hh

theorem convertRows_spec (chars : List Char) (pm : Bool) (cm : ColorMode)
    (colors : List (List RGBTriple)) (h2 : 2 ≤ chars.length)
    (hsafe : ∀ c ∈ chars, c ≠ '\n' ∧ c ≠ '\x1b') (W : Nat) :
    ∀ (pixels : List (List Nat)) (r : Nat),
    (∀ row ∈ pixels, row.length = W) →
    (∀ row ∈ pixels, ∀ p ∈ row, p ≤ 255) →
    (∀ j, j < pixels.length → ∃ crow, colors[r + j]? = some crow ∧ W ≤ crow.length) →
    ∃ grid, convertRows chars pm cm colors pixels r = some grid ∧
      grid.length = pixels.length ∧
      ∀ cells ∈ grid, cells.length = W ∧ ∀ s ∈ cells, CellGood s := by
  intro pixels
  induction pixels with
  | nil => exact fun r _ _ _ => ⟨[], rfl, rfl, by simp⟩
  | cons row rows ih =>
    intro r hW hint hcol
    obtain ⟨crow, hcrow, hcwlen⟩ := hcol 0 (by simp)
    rw [Nat.add_zero] at hcrow
    have hrowW : row.length = W := hW row (List.mem_cons_self _ _)
    obtain ⟨cells, hcells, hclen, hcgood⟩ :=
      rowCells_spec chars pm cm colors r crow hcrow h2 hsafe row 0
        (hint row (List.mem_cons_self _ _)) (by omega)
    obtain ⟨grid, hgrid, hglen, hggood⟩ :=
      ih (r + 1) (fun x hx => hW x (List.mem_cons_of_mem _ hx))
        (fun x hx => hint x (List.mem_cons_of_mem _ hx))
        (fun j hj => by
          have := hcol (j + 1) (by simp only [List.length_cons]; omega)
          rwa [show r + (j + 1) = r + 1 + j by omega] at this)
    refine ⟨cells :: grid, ?_, by simp [hglen], ?_⟩
    · simp only [convertRows, hcells, hgrid]
      rfl
    · intro cs hcs
      rcases List.mem_cons.mp hcs with hh | hh
      · subst hh
        exact ⟨by omega, hcgood⟩
      · exact hggood cs hh

theorem rowCellsMasked_spec (chars : List Char) (pm : Bool) (cm : ColorMode)
    (maskPixels : List (List Nat)) (colors : List (List RGBTriple)) (r : Nat)
    (mrow : List Nat) (crow : List RGBTriple)
    (hmrow : maskPixels[r]? = some mrow) (hcrow : colors[r]? = some crow)
    (h2 : 2 ≤ chars.length) (hsafe : ∀ c ∈ chars, c ≠ '\n' ∧ c ≠ '\x1b') :
    ∀ (ps : List Nat) (i : Nat), (∀ p ∈ ps, p ≤ 255) →
    i + ps.length ≤ mrow.length → i + ps.length ≤ crow.length →
    ∃ cells, rowCellsMasked chars pm cm maskPixels colors r ps i = some cells ∧
      cells.length = ps.length ∧ ∀ s ∈ cells, CellGood s := by
  intro ps
  induction ps with
  | nil => exact fun i _ _ _ => ⟨[], rfl, rfl, by simp⟩
  | cons p ps ih =>
    intro i hint hmlen hclen
    have hmi : i < mrow.length := by
      simp only [List.length_cons] at hmlen
      omega
    have hci : i < crow.length := by
      simp only [List.length_cons] at hclen
      omega
    obtain ⟨cells, hcells, hlen2, hgood⟩ :=
      ih (i + 1) (fun q hq => hint q (List.mem_cons_of_mem _ hq))
        (by simp only [List.length_cons] at hmlen; omega)
        (by simp only [List.length_cons] at hclen; omega)
    by_cases hmv : mrow[i] < 128
    · refine ⟨" " :: cells, ?_, by simp [hlen2], ?_⟩
      · simp only [rowCellsMasked, hmrow, Option.bind_eq_bind, Option.some_bind,
          List.getElem?_eq_getElem hmi, if_pos hmv, hcells]
        rfl
      · intro s hs
        rcases List.mem_cons.mp hs with hh | hh
        · subst hh
          exact cellGood_space
        · exact hgood s hh
    · obtain ⟨ch, hch, hchmem⟩ :=
        selectChar_spec chars pm p i h2 (hint p (List.mem_cons_self _ _))
      refine ⟨colorize cm ch crow[i] :: cells, ?_, by simp [hlen2], ?_⟩
      · simp only [rowCellsMasked, hmrow, Option.bind_eq_bind, Option.some_bind,
          List.getElem?_eq_getElem hmi, if_neg hmv, hch, hcrow,
          List.getElem?_eq_getElem hci, hcells]
        rfl
      · intro s hs
        rcases List.mem_cons.mp hs with hh | hh
        · subst hh
          exact colorize_cellGood cm ch _ (hsafe ch hchmem).1 (hsafe ch hchmem).2
        · exact hgood s hh

theorem convertRowsMasked_spec (chars : List Char) (pm : Bool) (cm : ColorMode)
    (maskPixels : List (List Nat)) (colors : List (List RGBTriple))
    (h2 : 2 ≤ chars.length) (hsafe : ∀ c ∈ chars, c ≠ '\n' ∧ c ≠ '\x1b') (W : Nat) :
    ∀ (pixels : List (List Nat)) (r : Nat),
    (∀ row ∈ pixels, row.length = W) →
    (∀ row ∈ pixels, ∀ p ∈ row, p ≤ 255) →
    (∀ j, j < pixels.length → ∃ mrow, maskPixels[r + j]? = some mrow ∧ W ≤ mrow.length) →
    (∀ j, j < pixels.length → ∃ crow, colors[r + j]? = some crow ∧ W ≤ crow.length) →
    ∃ grid, convertRowsMasked chars pm cm maskPixels colors pixels r = some grid ∧
      grid.length = pixels.length ∧
      ∀ cells ∈ grid, cells.length = W ∧ ∀ s ∈ cells, CellGood s := by
  intro pixels
  induction pixels with
  | nil => exact fun r _ _ _ _ => ⟨[], rfl, rfl, by simp⟩
  | cons row rows ih =>
    intro r hW hint hmask hcol
    obtain ⟨mrow, hmrow, hmwlen⟩ := hmask 0 (by simp)
    obtain ⟨crow, hcrow, hcwlen⟩ := hcol 0 (by simp)
    rw [Nat.add_zero] at hmrow hcrow
    have hrowW : row.length = W := hW row (List.mem_cons_self _ _)
    obtain ⟨cells, hcells, hclen, hcgood⟩ :=
      rowCellsMasked_spec chars pm cm maskPixels colors r mrow crow hmrow hcrow h2 hsafe
        row 0 (hint row (List.mem_cons_self _ _)) (by omega) (by omega)
    obtain ⟨grid, hgrid, hglen, hggood⟩ :=
      ih (r + 1) (fun x hx => hW x (List.mem_cons_of_mem _ hx))
        (fun x hx => hint x (List.mem_cons_of_mem _ hx))
        (fun j hj => by
          have := hmask (j + 1) (by simp only [List.length_cons]; omega)
          rwa [show r + (j + 1) = r + 1 + j by omega] at this)
        (fun j hj => by
          have := hcol (j + 1) (by simp only [List.length_cons]; omega)
          rwa [show r + (j + 1) = r + 1 + j by omega] at this)
    refine ⟨cells :: grid, ?_, by simp [hglen], ?_⟩
    · simp only [convertRowsMasked, hcells, hgrid]
      rfl
    · intro cs hcs
      rcases List.mem_cons.mp hcs with hh | hh
      · subst hh
        exact ⟨by omega, hcgood⟩
      · exact hggood cs hh

theorem rowCellsMasked_space (chars : List Char) (pm : Bool) (cm : ColorMode)
    (maskPixels : List (List Nat)) (colors : List (List RGBTriple)) (r : Nat)
    (mrow : List Nat) (hmrow : maskPixels[r]? = some mrow) :
    ∀ (ps : List Nat) (i : Nat) (cells : List String),
    rowCellsMasked chars pm cm maskPixels colors r ps i = some cells →
    ∀ (j mv : Nat), mrow[i + j]? = some mv → mv < 128 →
    ∀ cell, cells[j]? = some cell → cell = " " := by
  intro ps
  induction ps with
  | nil =>
    intro i cells h j mv hmv hlt cell hcell
    simp only [rowCellsMasked] at h
    obtain rfl : ([] : List String) = cells := Option.some.inj h
    simp at hcell
  | cons p ps ih =>
    intro i cells h j mv hmv hlt cell hcell
    obtain ⟨hij, hmveq⟩ := List.getElem?_eq_some_iff.mp hmv
    have hmi : i < mrow.length := by omega
    simp only [rowCellsMasked, hmrow, Option.bind_eq_bind, Option.some_bind,
      List.getElem?_eq_getElem hmi] at h
    by_cases hb : mrow[i] < 128
    · rw [if_pos hb] at h
      simp only [Option.bind_eq_bind, Option.bind_eq_some, Option.pure_def,
        Option.some.injEq] at h
      obtain ⟨rest, hrest, hcellseq⟩ := h
      subst hcellseq
      cases j with
      | zero =>
        simp only [List.getElem?_cons_zero] at hcell
        exact (Option.some.inj hcell).symm
      | succ j2 =>
        simp only [List.getElem?_cons_succ] at hcell
        refine ih (i + 1) rest hrest j2 mv ?_ hlt cell hcell
        rw [show i + 1 + j2 = i + (j2 + 1) by omega]
        exact hmv
    · rw [if_neg hb] at h
      simp only [Option.bind_eq_bind, Option.bind_eq_some, Option.pure_def,
        Option.some.injEq] at h
      obtain ⟨ch, hch, rgb, hrgb, rest, hrest, hcellseq⟩ := h
      subst hcellseq
      cases j with
      | zero =>
        have hmv0 : mv = mrow[i] := by
          rw [← hmveq]
          congr 1
        omega
      | succ j2 =>
        simp only [List.getElem?_cons_succ] at hcell
        refine ih (i + 1) rest hrest j2 mv ?_ hlt cell hcell
        rw [show i + 1 + j2 = i + (j2 + 1) by omega]
        exact hmv

theorem convertRowsMasked_space (chars : List Char) (pm : Bool) (cm : ColorMode)
    (maskPixels : List (List Nat)) (colors : List (List RGBTriple)) :
    ∀ (pixels : List (List Nat)) (r0 : Nat) (grid : List (List String)),
    convertRowsMasked chars pm cm maskPixels colors pixels r0 = some grid →
    ∀ (rr : Nat) (cells : List String), grid[rr]? = some cells →
    ∀ (mrow : List Nat), maskPixels[r0 + rr]? = some mrow →
    ∀ (j mv : Nat), mrow[j]? = some mv → mv < 128 →
    ∀ cell, cells[j]? = some cell → cell = " " := by
  intro pixels
  induction pixels with
  | nil =>
    intro r0 grid h rr cells hcells
    simp only [convertRowsMasked] at h
    obtain rfl : ([] : List (List String)) = grid := Option.some.inj h
    simp at hcells
  | cons row rows ih =>
    intro r0 grid h rr cells hcells mrow hmrow j mv hmv hlt cell hcell
    simp only [convertRowsMasked, Option.bind_eq_bind, Option.bind_eq_some,
      Option.pure_def, Option.some.injEq] at h
    obtain ⟨cells0, hcells0, rest, hrest, hgrideq⟩ := h
    subst hgrideq
    cases rr with
    | zero =>
      simp only [List.getElem?_cons_zero] at hcells
      obtain rfl : cells0 = cells := Option.some.inj hcells
      refine rowCellsMasked_space chars pm cm maskPixels colors r0 mrow ?_
        row 0 cells0 hcells0 j mv ?_ hlt cell hcell
      · simpa using hmrow
      · simpa using hmv
    | succ rr2 =>
      simp only [List.getElem?_cons_succ] at hcells
      refine ih (r0 + 1) rest hrest rr2 cells hcells mrow ?_ j mv hmv hlt cell hcell
      rw [show r0 + 1 + rr2 = r0 + (rr2 + 1) by omega]
      exact hmrow

theorem countEsc_append (a b : String) : countEsc (a ++ b) = countEsc a + countEsc b := by
  simp [countEsc, String.data_append, List.count_append]

theorem countEsc_single (ch : Char) (h : ch ≠ '\x1b') : countEsc (String.mk [ch]) = 0 := by
  simp [countEsc, mk_data, List.count_cons, h]

theorem rowCells_cnone_esc (chars : List Char) (pm : Bool)
    (colors : List (List RGBTriple)) (r : Nat) (hesc : ∀ c ∈ chars, c ≠ '\x1b') :
    ∀ (ps : List Nat) (i : Nat) (cells : List String),
    rowCells chars pm ColorMode.cnone colors r ps i = some cells →
    ∀ s ∈ cells, countEsc s = 0 := by
  intro ps
  induction ps with
  | nil =>
    intro i cells h s hs
    simp only [rowCells] at h
    obtain rfl : ([] : List String) = cells := Option.some.inj h
    simp at hs
  | cons p ps ih =>
    intro i cells h s hs
    simp only [rowCells, Option.bind_eq_bind, Option.bind_eq_some, Option.pure_def,
      Option.some.injEq] at h
    obtain ⟨ch, hch, rgb, hrgb, rest, hrest, hcellseq⟩ := h
    subst hcellseq
    rcases List.mem_cons.mp hs with hh | hh
    · subst hh
      show countEsc (noColor ch rgb) = 0
      exact countEsc_single ch (hesc ch (selectChar_mem chars pm p i ch hch))
    · exact ih (i + 1) rest hrest s hh

theorem convertRows_cnone_esc (chars : List Char) (pm : Bool)
    (colors : List (List RGBTriple)) (hesc : ∀ c ∈ chars, c ≠ '\x1b') :
    ∀ (pixels : List (List Nat)) (r : Nat) (grid : List (List String)),
    convertRows chars pm ColorMode.cnone colors pixels r = some grid →
    ∀ cells ∈ grid, ∀ s ∈ cells, countEsc s = 0 := by
  intro pixels
  induction pixels with
  | nil =>
    intro r grid h cells hcells
    simp only [convertRows] at h
    obtain rfl : ([] : List (List String)) = grid := Option.some.inj h
    simp at hcells
  | cons row rows ih =>
    intro r grid h cells hcells
    simp only [convertRows, Option.bind_eq_bind, Option.bind_eq_some, Option.pure_def,
      Option.some.injEq] at h
    obtain ⟨cells0, hcells0, rest, hrest, hgrideq⟩ := h
    subst hgrideq
    rcases List.mem_cons.mp hcells with hh | hh
    · subst hh
      exact rowCells_cnone_esc chars pm colors r hesc row 0 cells hcells0
    · exact ih (r + 1) rest hrest cells hh

theorem countEsc_strJoin : ∀ (cells : List String), (∀ s ∈ cells, countEsc s = 0) →
    countEsc (strJoin cells) = 0 := by
  intro cells
  induction cells with
  | nil => intro _; rfl
  | cons s rest ih =>
    intro h
    show countEsc (s ++ strJoin rest) = 0
    rw [countEsc_append, h s (List.mem_cons_self _ _),
      ih (fun x hx => h x (List.mem_cons_of_mem _ hx))]

theorem countEsc_nlJoin : ∀ (rows : List String), (∀ s ∈ rows, countEsc s = 0) →
    countEsc (nlJoin rows) = 0 := by
  intro rows
  induction rows with
  | nil => intro _; rfl
  | cons s rest ih =>
    intro h
    cases rest with
    | nil => exact h s (List.mem_cons_self _ _)
    | cons t rest2 =>
      show countEsc (s ++ "\n" ++ nlJoin (t :: rest2)) = 0
      rw [countEsc_append, countEsc_append, h s (List.mem_cons_self _ _),
        ih (fun x hx => h x (List.mem_cons_of_mem _ hx))]
      rfl

theorem resizeHeight_eq_div (w h width : Nat) (hw : 1 ≤ w) :
    resizeHeight w h width = h * width / (2 * w) := by
  unfold resizeHeight
  have hw0 : (w : ℚ) ≠ 0 := Nat.cast_ne_zero.mpr (by omega)
  have heq : (h : ℚ) / w * width * (1 / 2) = ((h * width : Nat) : ℚ) / ((2 * w : Nat) : ℚ) := by
    push_cast
    ring
  rw [heq, Int.floor_toNat]
  exact_mod_cast Nat.floor_div_eq_div (α := ℚ) (h * width) (2 * w)

/-! ### Claim theorems -/

/-- C1: in gradient mode, for every palette of length `N` with
`2 ≤ N ≤ 50` and every intensity in `[0, 255]`, the selector computes
`index = floor(pixel / (255 / (N - 1)))` (real-valued division), the
index is at most `N - 1`, and the palette lookup succeeds (never out of
bounds), including at intensity 0 and 255. -/
theorem c1_gradient_index_in_bounds (chars : List Char) (pixel colIdx : Nat)
    (h2 : 2 ≤ chars.length) (h50 : chars.length ≤ 50) (hp : pixel ≤ 255) :
    gradientIndex pixel chars.length =
      (⌊(pixel : ℚ) / ((255 : ℚ) / ((chars.length : ℚ) - 1))⌋).toNat ∧
    gradientIndex pixel chars.length ≤ chars.length - 1 ∧
    selectChar chars false pixel colIdx = chars[gradientIndex pixel chars.length]? ∧
    (chars[gradientIndex pixel chars.length]?).isSome = true := by
  refine ⟨rfl, gradientIndex_le pixel chars.length h2 hp, ?_, ?_⟩
  · unfold selectChar
    simp only [Bool.false_eq_true, if_false, if_neg (show ¬chars.length = 1 by omega)]
  · rw [List.getElem?_eq_getElem (gradientIndex_lt pixel chars.length h2 hp)]
    rfl

/-- Witness for C1: the default-style 3-character palette at intensity
255 (the topmost bucket) and at intensity 0. -/
theorem c1_gradient_index_in_bounds_witness :
    (2 ≤ (['@', '#', 'S'] : List Char).length ∧ (['@', '#', 'S'] : List Char).length ≤ 50 ∧
      (255 : Nat) ≤ 255) ∧
    gradientIndex 255 (['@', '#', 'S'] : List Char).length ≤
      (['@', '#', 'S'] : List Char).length - 1 ∧
    ((['@', '#', 'S'] : List Char)[gradientIndex 255 (['@', '#', 'S'] : List Char).length]?).isSome
      = true :=
  ⟨⟨by decide, by decide, by decide⟩,
    (c1_gradient_index_in_bounds ['@', '#', 'S'] 255 0 (by decide) (by decide) (by decide)).2.1,
    (c1_gradient_index_in_bounds ['@', '#', 'S'] 255 0 (by decide) (by decide) (by decide)).2.2.2⟩

/-- C2 counterexample: the resize step truncates (`int(...)`), it does
not round.  For a source of width 2, height 1 and target width 3 the
code computes `int(0.75) = 0`, while `round(1/2 * 3 * 0.5) = 1`. -/
theorem c2_counterexample :
    resizeSize 2 1 3 = (3, 0) ∧ round ((1 : ℚ) / 2 * 3 * (1 / 2)) = 1 ∧ (0 : Nat) ≠ 1 := by
  refine ⟨?_, ?_, by decide⟩
  · show (3, resizeHeight 2 1 3) = (3, 0)
    rw [resizeHeight_eq_div 2 1 3 (by omega)]
  · norm_num [round_eq]

/-- C2 (amended): the resize step produces an image of width exactly `T`
and height exactly `floor(H/W * T * 0.5)` (Python `int` truncation, not
rounding); in particular `W = 200`, `H = 100`, `T = 100` still yields
height 25. -/
theorem c2_resize_floor (w h width : Nat) (hw : 1 ≤ w) :
    resizeSize w h width = (width, h * width / (2 * w)) ∧ resizeSize 200 100 100 = (100, 25) := by
  constructor
  · show (width, resizeHeight w h width) = _
    rw [resizeHeight_eq_div w h width hw]
  · show (100, resizeHeight 200 100 100) = (100, 25)
    rw [resizeHeight_eq_div 200 100 100 (by omega)]

/-- Witness for C2 (amended) at `W = 4`, `H = 3`, `T = 10`:
height `int(3/4 * 10 * 0.5) = int(3.75) = 3`. -/
theorem c2_resize_floor_witness :
    1 ≤ 4 ∧ resizeSize 4 3 10 = (10, 3 * 10 / (2 * 4)) :=
  ⟨by decide, (c2_resize_floor 4 3 10 (by decide)).1⟩

/-- C7: in pattern mode the selected character at column `c` is
`palette[c mod len(palette)]`; it depends only on the column index and
never on the pixel intensity — two different intensities at the same
column give the same character. -/
theorem c7_pattern_mode_column_only (chars : List Char) (i1 i2 col : Nat) :
    selectChar chars true i1 col = chars[col % chars.length]? ∧
    selectChar chars true i1 col = selectChar chars true i2 col := by
  constructor
  · unfold selectChar
    split
    · split
      · next h _ =>
        obtain rfl : chars = [] := List.length_eq_zero.mp (by assumption)
        simp
      · rfl
    · simp at *
  · rfl

/-- C10: `image_to_ascii` replaces a falsy `width` (`None` or `0`) by
the default 100 and a falsy `chars` (`None` or the empty list) by the
default 11-character palette, without failing; an empty palette is never
rejected at this interface. -/
theorem c10_falsy_defaults :
    imageToAsciiWidth none = 100 ∧ imageToAsciiWidth (some 0) = 100 ∧
    imageToAsciiChars none = defaultChars ∧ imageToAsciiChars (some []) = defaultChars ∧
    defaultChars = ['@', '#', 'S', '%', '?', '*', '+', ';', ':', ',', '.'] ∧
    defaultChars.length = 11 :=
  ⟨rfl, rfl, rfl, rfl, rfl, rfl⟩

/-- C3: in masked rendering, every grid position `(r, c)` whose mask
value is below 128 is rendered as exactly one space character with no
colour escape attached, for every colour mode, pattern mode and
intensity at that position. -/
theorem c3_masked_background_space (chars : List Char) (pm : Bool) (cm : ColorMode)
    (pixels maskPixels : List (List Nat)) (colors : List (List RGBTriple))
    (grid : List (List String)) (r c mv : Nat) (mrow : List Nat) (cells : List String)
    (cell : String)
    (hconv : convertRowsMasked chars pm cm maskPixels colors pixels 0 = some grid)
    (hmrow : maskPixels[r]? = some mrow) (hmv : mrow[c]? = some mv) (hlt : mv < 128)
    (hcells : grid[r]? = some cells) (hcell : cells[c]? = some cell) :
    cell = " " :=
  convertRowsMasked_space chars pm cm maskPixels colors pixels 0 grid hconv r cells hcells
    mrow (by simpa using hmrow) c mv hmv hlt cell hcell

/-- Witness for C3: a 1-by-1 render with mask value 0 in `both` colour
mode emits a single bare space. -/
theorem c3_masked_background_space_witness :
    convertRowsMasked ['a', 'b'] false ColorMode.cboth [[0]] [[(1, 2, 3)]] [[7]] 0 =
      some [[" "]] ∧ (0 : Nat) < 128 ∧ (" " : String) = " " :=
  ⟨by decide, by decide,
    c3_masked_background_space ['a', 'b'] false ColorMode.cboth [[7]] [[0]] [[(1, 2, 3)]]
      [[" "]] 0 0 0 [0] [" "] " " (by decide) (by decide) (by decide) (by decide)
      (by decide) (by decide)⟩

/-- C4 counterexample: with colour mode `none` the colorize step leaves
the character unmodified, but the rendered output still ends with the
reset escape `"\x1b[0m"`, so it is not true that the output contains no
escape sequences at all. -/
theorem c4_counterexample :
    convertToAscii [[0]] [[(0, 0, 0)]] ['a', 'b'] false ColorMode.cnone =
      some "a\x1b[0m" ∧ countEsc "a\x1b[0m" = 1 := by
  constructor
  · have hgi : gradientIndex 0 2 = 0 := by
      rw [gradientIndex_eq_div 0 2 (by omega)]
    have hs : selectChar ['a', 'b'] false 0 0 = some 'a' := by
      unfold selectChar
      rw [show (['a', 'b'] : List Char).length = 2 from rfl, hgi]
      decide
    simp only [convertToAscii, convertRows, rowCells, hs]
    decide
  · decide

/-- C4 (amended): `_no_color` returns each character unmodified, so
colour mode `none` inserts no per-character escape; the rendered output
nevertheless contains exactly one escape character — the single
trailing reset appended after the rows are joined. -/
theorem c4_none_single_reset_escape (pixels : List (List Nat))
    (colors : List (List RGBTriple)) (chars : List Char) (pm : Bool) (out : String)
    (hesc : ∀ c ∈ chars, c ≠ '\x1b')
    (hconv : convertToAscii pixels colors chars pm ColorMode.cnone = some out) :
    (∀ (ch : Char) (rgb : RGBTriple), colorize ColorMode.cnone ch rgb = String.mk [ch]) ∧
    countEsc out = 1 := by
  refine ⟨fun ch rgb => rfl, ?_⟩
  simp only [convertToAscii, Option.bind_eq_bind, Option.bind_eq_some, Option.pure_def,
    Option.some.injEq] at hconv
  obtain ⟨grid, hgrid, hout⟩ := hconv
  subst hout
  rw [countEsc_append]
  have h0 : countEsc (nlJoin (grid.map strJoin)) = 0 := by
    apply countEsc_nlJoin
    intro s hs
    obtain ⟨cells, hcellsmem, rfl⟩ := List.mem_map.mp hs
    exact countEsc_strJoin cells
      (fun x hx => convertRows_cnone_esc chars pm colors hesc pixels 0 grid hgrid cells
        hcellsmem x hx)
  rw [h0]
  rfl

/-- Witness for C4 (amended): a 1-by-1 pattern-mode render in colour
mode `none` produces `"a\x1b[0m"`, which has exactly one escape
character. -/
theorem c4_none_single_reset_escape_witness :
    convertToAscii [[10]] [[(0, 0, 0)]] ['a', 'b'] true ColorMode.cnone =
      some "a\x1b[0m" ∧ countEsc "a\x1b[0m" = 1 :=
  ⟨by decide,
    (c4_none_single_reset_escape [[10]] [[(0, 0, 0)]] ['a', 'b'] true "a\x1b[0m"
      (by decide) (by decide)).2⟩

/-- C5: foreground and background modes prefix the character with a
256-colour escape whose colour index is
`16 + 36*floor(r*5/255) + 6*floor(g*5/255) + floor(b*5/255)`; `both`
mode emits the foreground escape and then a background escape computed
from the same RGB with each channel increased by 20 and clamped to
`[0, 255]`, both before the character. -/
theorem c5_color_mapping (ch : Char) (r g b : Nat)
    (_hr : r ≤ 255) (_hg : g ≤ 255) (_hb : b ≤ 255) :
    foregroundColor ch (r, g, b) = getColorEscape r g b false ++ String.mk [ch] ∧
    backgroundColor ch (r, g, b) = getColorEscape r g b true ++ String.mk [ch] ∧
    getColorEscape r g b false = "\x1b[38;5;" ++ natStr (rgbTo256 r g b) ++ "m" ∧
    getColorEscape r g b true = "\x1b[48;5;" ++ natStr (rgbTo256 r g b) ++ "m" ∧
    rgbTo256 r g b =
      16 + 36 * ⌊((r : ℚ) * 5) / 255⌋₊ + 6 * ⌊((g : ℚ) * 5) / 255⌋₊ + ⌊((b : ℚ) * 5) / 255⌋₊ ∧
    bothColor ch (r, g, b) =
      getColorEscape r g b false ++
        getColorEscape (min 255 (r + 20)) (min 255 (g + 20)) (min 255 (b + 20)) true ++
        String.mk [ch] := by
  have hfl : ∀ v : Nat, ⌊((v : ℚ) * 5) / 255⌋₊ = v * 5 / 255 := by
    intro v
    rw [show ((v : ℚ) * 5) = ((v * 5 : Nat) : ℚ) by push_cast; ring]
    exact_mod_cast Nat.floor_div_eq_div (α := ℚ) (v * 5) 255
  refine ⟨rfl, rfl, ?_, ?_, ?_, ?_⟩
  · unfold getColorEscape
    rw [if_neg (by decide), show ("\x1b[" ++ "38" ++ ";5;" : String) = "\x1b[38;5;" from rfl]
  · unfold getColorEscape
    rw [if_pos rfl, show ("\x1b[" ++ "48" ++ ";5;" : String) = "\x1b[48;5;" from rfl]
  · rw [hfl r, hfl g, hfl b]
    rfl
  · unfold bothColor
    simp only [Nat.zero_max]

/-- Witness for C5 at `ch = 'x'` and RGB `(250, 100, 3)`: the `both`
mode emits the foreground escape, the nudged-and-clamped background
escape, then the character. -/
theorem c5_color_mapping_witness :
    ((250 : Nat) ≤ 255 ∧ (100 : Nat) ≤ 255 ∧ (3 : Nat) ≤ 255) ∧
    rgbTo256 250 100 3 =
      16 + 36 * ⌊((250 : ℚ) * 5) / 255⌋₊ + 6 * ⌊((100 : ℚ) * 5) / 255⌋₊ +
        ⌊((3 : ℚ) * 5) / 255⌋₊ ∧
    bothColor 'x' (250, 100, 3) =
      getColorEscape 250 100 3 false ++
        getColorEscape (min 255 (250 + 20)) (min 255 (100 + 20)) (min 255 (3 + 20)) true ++
        String.mk ['x'] :=
  ⟨⟨by decide, by decide, by decide⟩,
    (c5_color_mapping 'x' 250 100 3 (by decide) (by decide) (by decide)).2.2.2.2.1,
    (c5_color_mapping 'x' 250 100 3 (by decide) (by decide) (by decide)).2.2.2.2.2⟩

/-- C8: if the external segmentation call raises, the background
extractor returns the original, unmodified bitmap together with an
all-foreground (all-255) mask of the original's dimensions and flags a
non-fatal warning while returning normally, so rendering proceeds; if
the call succeeds but its output has no alpha channel, the mask is
likewise synthesized all-foreground. -/
theorem c8_remove_background_fallback (image noBg : PImage) (e : String)
    (hmode : noBg.mode ≠ PixMode.modeRGBA) :
    removeBackground image (Except.error e) = (image, newL image.w image.h 255, true) ∧
    ((newL image.w image.h 255).length = image.h ∧
      ∀ mr ∈ newL image.w image.h 255, mr.length = image.w ∧ ∀ v ∈ mr, v = 255) ∧
    removeBackground image (Except.ok noBg) = (noBg, newL noBg.w noBg.h 255, false) := by
  refine ⟨rfl, ⟨by simp [newL], ?_⟩, ?_⟩
  · intro mr hmr
    obtain rfl : mr = List.replicate image.w 255 := List.eq_of_mem_replicate hmr
    exact ⟨by simp, fun v hv => List.eq_of_mem_replicate hv⟩
  · show (if noBg.mode = PixMode.modeRGBA then (noBg, noBg.alpha, false)
        else (noBg, newL noBg.w noBg.h 255, false)) = (noBg, newL noBg.w noBg.h 255, false)
    rw [if_neg hmode]

/-- Witness for C8: a 2-by-1 RGB image; the failing external call
returns it unchanged with the all-255 mask, and a successful call whose
output lacks an alpha channel also yields the all-255 mask. -/
theorem c8_remove_background_fallback_witness :
    removeBackground ⟨PixMode.modeRGB, 2, 1, []⟩ (Except.error "boom") =
      (⟨PixMode.modeRGB, 2, 1, []⟩, newL 2 1 255, true) ∧
    removeBackground ⟨PixMode.modeRGB, 2, 1, []⟩ (Except.ok ⟨PixMode.modeL, 2, 1, []⟩) =
      (⟨PixMode.modeL, 2, 1, []⟩, newL 2 1 255, false) :=
  ⟨(c8_remove_background_fallback ⟨PixMode.modeRGB, 2, 1, []⟩ ⟨PixMode.modeL, 2, 1, []⟩
      "boom" (by decide)).1,
    (c8_remove_background_fallback ⟨PixMode.modeRGB, 2, 1, []⟩ ⟨PixMode.modeL, 2, 1, []⟩
      "boom" (by decide)).2.2⟩

/-- C9 counterexample: a palette of length 1 supplied for a render is
not rejected before rendering: `image_to_ascii` forwards it unvalidated
and the conversion pipeline runs with it — pattern mode renders
normally, and gradient mode fails inside rendering with a division
error, not a typed validation failure.  The typed length check exists in
`validate_chars`, but the render path never invokes it. -/
theorem c9_counterexample :
    imageToAsciiChars (some ['X']) = ['X'] ∧
    convertToAscii [[100]] [[(0, 0, 0)]] ['X'] true ColorMode.cnone = some "X\x1b[0m" ∧
    convertToAscii [[100]] [[(0, 0, 0)]] ['X'] false ColorMode.cnone = none ∧
    validateChars ["X"] 2 50 true true false =
      Except.error (CharsValidationError.tooFew 1) := by
  refine ⟨rfl, by decide, by decide, rfl⟩

/-- C9 (amended): `validate_chars` raises a typed `ValidationError` for
palettes shorter than two entries, but `image_to_ascii` performs no
palette validation: every non-empty palette, including one of length 1,
is forwarded as-is to the conversion pipeline, which renders it in
pattern mode and fails with a division error (a generic crash) in
gradient mode. -/
theorem c9_no_render_validation (cs : List Char) (hne : cs ≠ []) :
    imageToAsciiChars (some cs) = cs ∧
    validateChars ["X"] 2 50 true true false =
      Except.error (CharsValidationError.tooFew 1) ∧
    convertToAscii [[100]] [[(0, 0, 0)]] ['X'] false ColorMode.cnone = none := by
  refine ⟨?_, rfl, by decide⟩
  simp [imageToAsciiChars, hne]

/-- Witness for C9 (amended) at the length-1 palette. -/
theorem c9_no_render_validation_witness :
    (['X'] : List Char) ≠ [] ∧ imageToAsciiChars (some ['X']) = ['X'] :=
  ⟨by decide, (c9_no_render_validation ['X'] (by decide)).1⟩

/-- C6: for every grayscale bitmap whose rows all have width `W`, a
colour bitmap and (for the masked renderer) a mask of the same
dimensions, both renderers succeed and produce a string with exactly as
many newline-separated rows as the bitmap height, each containing
exactly `W` visible characters once ANSI escape sequences are excluded,
for every colour mode and pattern mode. -/
theorem c6_output_dimensions (W : Nat) (pixels maskPixels : List (List Nat))
    (colors : List (List RGBTriple)) (chars : List Char) (pm : Bool) (cm : ColorMode)
    (hH : 1 ≤ pixels.length)
    (h2 : 2 ≤ chars.length)
    (hsafe : ∀ c ∈ chars, c ≠ '\n' ∧ c ≠ '\x1b')
    (hpixW : ∀ row ∈ pixels, row.length = W)
    (hpixI : ∀ row ∈ pixels, ∀ p ∈ row, p ≤ 255)
    (hcolH : colors.length = pixels.length)
    (hcolW : ∀ crow ∈ colors, crow.length = W)
    (hmaskH : maskPixels.length = pixels.length)
    (hmaskW : ∀ mrow ∈ maskPixels, mrow.length = W) :
    (∃ out, convertToAscii pixels colors chars pm cm = some out ∧
      (splitNl out.data).length = pixels.length ∧
      ∀ rr ∈ splitNl out.data, visAux false rr = W) ∧
    (∃ out, convertToAsciiWithMask pixels maskPixels colors chars pm cm = some out ∧
      (splitNl out.data).length = pixels.length ∧
      ∀ rr ∈ splitNl out.data, visAux false rr = W) := by
  have hcolAt : ∀ j, j < pixels.length → ∃ crow, colors[0 + j]? = some crow ∧ W ≤ crow.length := by
    intro j hj
    have hjc : j < colors.length := by omega
    refine ⟨colors[j], by simp [List.getElem?_eq_getElem hjc], ?_⟩
    rw [hcolW colors[j] (List.getElem_mem _)]
  have hmaskAt : ∀ j, j < pixels.length →
      ∃ mrow, maskPixels[0 + j]? = some mrow ∧ W ≤ mrow.length := by
    intro j hj
    have hjm : j < maskPixels.length := by omega
    refine ⟨maskPixels[j], by simp [List.getElem?_eq_getElem hjm], ?_⟩
    rw [hmaskW maskPixels[j] (List.getElem_mem _)]
  constructor
  · obtain ⟨grid, hgrid, hglen, hggood⟩ :=
      convertRows_spec chars pm cm colors h2 hsafe W pixels 0 hpixW hpixI hcolAt
    have hrowsGood : ∀ s ∈ grid.map strJoin, RowGood W s := by
      intro s hs
      obtain ⟨cells, hc, rfl⟩ := List.mem_map.mp hs
      have hcg := hggood cells hc
      have := strJoin_rowGood cells hcg.2
      rwa [hcg.1] at this
    have hne : grid.map strJoin ≠ [] := by
      apply List.ne_nil_of_length_pos
      simp only [List.length_map]
      omega
    obtain ⟨hl, hv⟩ := rendered_shape W (grid.map strJoin) hne hrowsGood
    refine ⟨nlJoin (grid.map strJoin) ++ asciiReset, ?_, ?_, hv⟩
    · simp only [convertToAscii, hgrid]
      rfl
    · rw [hl]
      simp only [List.length_map]
      omega
  · obtain ⟨grid, hgrid, hglen, hggood⟩ :=
      convertRowsMasked_spec chars pm cm maskPixels colors h2 hsafe W pixels 0 hpixW hpixI
        hmaskAt hcolAt
    have hrowsGood : ∀ s ∈ grid.map strJoin, RowGood W s := by
      intro s hs
      obtain ⟨cells, hc, rfl⟩ := List.mem_map.mp hs
      have hcg := hggood cells hc
      have := strJoin_rowGood cells hcg.2
      rwa [hcg.1] at this
    have hne : grid.map strJoin ≠ [] := by
      apply List.ne_nil_of_length_pos
      simp only [List.length_map]
      omega
    obtain ⟨hl, hv⟩ := rendered_shape W (grid.map strJoin) hne hrowsGood
    refine ⟨nlJoin (grid.map strJoin) ++ asciiReset, ?_, ?_, hv⟩
    · simp only [convertToAsciiWithMask, hgrid]
      rfl
    · rw [hl]
      simp only [List.length_map]
      omega

/-- Witness for C6: a 1-by-1 bitmap, mask value 255, pattern mode,
colour mode `none`. -/
theorem c6_output_dimensions_witness :
    (1 ≤ ([[(10 : Nat)]] : List (List Nat)).length ∧
      2 ≤ (['a', 'b'] : List Char).length) ∧
    ((∃ out, convertToAscii [[10]] [[(0, 0, 0)]] ['a', 'b'] true ColorMode.cnone = some out ∧
        (splitNl out.data).length = ([[(10 : Nat)]] : List (List Nat)).length ∧
        ∀ rr ∈ splitNl out.data, visAux false rr = 1) ∧
      (∃ out, convertToAsciiWithMask [[10]] [[255]] [[(0, 0, 0)]] ['a', 'b'] true
          ColorMode.cnone = some out ∧
        (splitNl out.data).length = ([[(10 : Nat)]] : List (List Nat)).length ∧
        ∀ rr ∈ splitNl out.data, visAux false rr = 1)) :=
  ⟨⟨by decide, by decide⟩,
    c6_output_dimensions 1 [[10]] [[255]] [[(0, 0, 0)]] ['a', 'b'] true ColorMode.cnone
      (by decide) (by decide) (by decide) (by decide) (by decide) (by decide) (by decide)
      (by decide) (by decide)⟩
